import Mathlib

/-!
Shallow embedding of the Science Facts API core (Fact corpus loader and the
query operations of the Hono route handlers in src/index.ts, with the
memoizing loader of api/index.ts).  JavaScript numbers that can be NaN are
modelled as Option Int (none = NaN); JavaScript strings as Lean String with
ASCII case mapping.
-/

namespace SciFacts

/-- A fact record, as in the Fact interface of src/index.ts. -/
structure Fact where
  id : Int
  text : String
  category : String
  source_url : Option String := none
  source_file : Option String := none
deriving Repr, DecidableEq

/-- A raw record before id assignment (the shape of facts.json entries). -/
structure RawFact where
  text : String
  category : String
  source_url : Option String := none
  source_file : Option String := none
deriving Repr, DecidableEq

/-- The loader's id assignment: factsData.map((f, i) => ({...f, id: i + 1})). -/
def addIds (raw : List RawFact) : List Fact :=
  raw.mapIdx (fun i f =>
    { id := (i : Int) + 1, text := f.text, category := f.category,
      source_url := f.source_url, source_file := f.source_file })

/-- JavaScript whitespace accepted by parseInt (ASCII part). -/
def isJsSpace (c : Char) : Bool :=
  c = ' ' || c = '\t' || c = '\n' || c = '\r' || c = '\x0b' || c = '\x0c'

/-- Value of a character as a digit in the given radix, as parseInt reads
digits (0-9, then a-z / A-Z), none when the character is not a digit of
that radix. -/
def digitVal (radix : Nat) (c : Char) : Option Nat :=
  let v : Option Nat :=
    if '0' ≤ c ∧ c ≤ '9' then some (c.toNat - '0'.toNat)
    else if 'a' ≤ c ∧ c ≤ 'z' then some (c.toNat - 'a'.toNat + 10)
    else if 'A' ≤ c ∧ c ≤ 'Z' then some (c.toNat - 'A'.toNat + 10)
    else none
  match v with
  | some n => if n < radix then some n else none
  | none => none

/-- Longest digit run of the given radix at the front of the characters;
none when that run is empty (parseInt then yields NaN). -/
def parseIntCore (radix : Nat) (cs : List Char) : Option Nat :=
  let ds := cs.takeWhile (fun c => (digitVal radix c).isSome)
  if ds.isEmpty then none
  else some (ds.foldl (fun acc c => acc * radix + (digitVal radix c).getD 0) 0)

/-- Sign handling of parseInt: a leading minus negates, a leading plus is
consumed, anything else leaves the characters untouched. -/
def parseSign (cs : List Char) : Int × List Char :=
  match cs with
  | [] => (1, [])
  | c :: rest =>
    if c = '-' then (-1, rest)
    else if c = '+' then (1, rest)
    else (1, c :: rest)

/-- Radix detection of parseInt with no radix argument: a 0x or 0X marker
switches to hexadecimal, anything else stays decimal. -/
def parseRadix (cs : List Char) : Nat × List Char :=
  match cs with
  | a :: b :: rest =>
    if a = '0' ∧ (b = 'x' ∨ b = 'X') then (16, rest) else (10, a :: b :: rest)
  | other => (10, other)

/-- JavaScript parseInt(s) with radix unspecified: skip leading whitespace,
read an optional sign, honour a 0x / 0X hexadecimal marker, then take the
longest run of digits; none models NaN. -/
def parseIntJS (s : String) : Option Int :=
  let cs := s.toList.dropWhile isJsSpace
  let signed := parseSign cs
  let based := parseRadix signed.2
  match parseIntCore based.1 based.2 with
  | none => none
  | some n => some (signed.1 * n)

/-- Math.min(a, b) where a may be NaN: NaN propagates. -/
def jsMin (a : Option Int) (b : Int) : Option Int :=
  match a with
  | none => none
  | some x => some (min x b)

/-- JavaScript + on two possibly-NaN numbers. -/
def jsAdd (a b : Option Int) : Option Int :=
  match a, b with
  | some x, some y => some (x + y)
  | _, _ => none

/-- JavaScript a < len where a may be NaN (any comparison with NaN is false). -/
def jsLtLen (a : Option Int) (len : Nat) : Bool :=
  match a with
  | none => false
  | some x => decide (x < (len : Int))

/-- Resolution of one Array.prototype.slice bound: ToIntegerOrInfinity maps
NaN to 0; a negative bound counts from the end clamped at 0, a nonnegative
one is clamped at the length. -/
def jsSliceBound (len : Nat) : Option Int → Nat
  | none => 0
  | some rel => if rel < 0 then ((len : Int) + rel).toNat else min rel.toNat len

/-- Array.prototype.slice(start, stop) on a fact list. -/
def jsSlice (l : List Fact) (start stop : Option Int) : List Fact :=
  let k := jsSliceBound l.length start
  let fin := jsSliceBound l.length stop
  (l.drop k).take (fin - k)

/-- Pagination metadata of GET /facts. -/
structure Pagination where
  total : Nat
  limit : Option Int
  offset : Option Int
  hasMore : Bool
deriving Repr, DecidableEq

/-- Response of GET /facts. -/
structure PageResult where
  data : List Fact
  pagination : Pagination
deriving Repr, DecidableEq

/-- The GET /facts handler: limit = Math.min(parseInt(query limit or 100), 1000),
offset = parseInt(query offset or 0), data = facts.slice(offset, offset + limit),
hasMore = offset + limit < facts.length. -/
def listPage (facts : List Fact) (limitQ offsetQ : Option String) : PageResult :=
  let limit := jsMin (parseIntJS (limitQ.getD "100")) 1000
  let offset := parseIntJS (offsetQ.getD "0")
  { data := jsSlice facts offset (jsAdd offset limit)
    pagination :=
      { total := facts.length, limit := limit, offset := offset,
        hasMore := jsLtLen (jsAdd offset limit) facts.length } }

/-- ASCII lowering, modelling String.prototype.toLowerCase. -/
def jsToLower (s : String) : String :=
  String.mk (s.toList.map Char.toLower)

/-- Does the haystack start with the needle? -/
def startsWithList : List Char → List Char → Bool
  | _, [] => true
  | [], _ :: _ => false
  | a :: as, b :: bs => a = b && startsWithList as bs

/-- Substring containment on character lists, modelling String.prototype.includes. -/
def containsSub : List Char → List Char → Bool
  | [], sub => startsWithList [] sub
  | a :: t, sub => startsWithList (a :: t) sub || containsSub t sub

/-- Fact text matches a search, as in the filter of GET /facts/search:
f.text.toLowerCase().includes(q) with q the lowered query. -/
def matchesQuery (loweredQ : String) (f : Fact) : Bool :=
  containsSub (jsToLower f.text).toList loweredQ.toList

/-- Successful GET /facts/search payload. -/
structure SearchOk where
  data : List Fact
  count : Nat
  query : String
deriving Repr, DecidableEq

/-- Result of GET /facts/search. -/
inductive SearchResult where
  | ok (r : SearchOk)
  | missingParameter
deriving Repr, DecidableEq

/-- The GET /facts/search handler: a missing or empty q is rejected,
otherwise filter the corpus by case-insensitive substring match on text. -/
def searchText (facts : List Fact) (qQ : Option String) : SearchResult :=
  match qQ with
  | none => .missingParameter
  | some query =>
    if query = "" then .missingParameter
    else
      let q := jsToLower query
      let results := facts.filter (matchesQuery q)
      .ok { data := results, count := results.length, query := query }

/-- Successful GET /facts/category payload; category echoes the request name. -/
structure CategoryOk where
  data : List Fact
  category : String
  count : Nat
deriving Repr, DecidableEq

/-- Result of GET /facts/category. -/
inductive CategoryResult where
  | ok (r : CategoryOk)
  | notFound (name : String)
deriving Repr, DecidableEq

/-- The GET /facts/category handler: case-insensitive exact match of the
path name against each category, 404 when nothing matches, else the matches
with the original-case name echoed back. -/
def byCategory (facts : List Fact) (name : String) : CategoryResult :=
  if (facts.filter (fun f => decide (jsToLower f.category = jsToLower name))).isEmpty
  then .notFound (jsToLower name)
  else
    .ok { data := facts.filter (fun f => decide (jsToLower f.category = jsToLower name)),
          category := name,
          count := (facts.filter
            (fun f => decide (jsToLower f.category = jsToLower name))).length }

/-- Result of GET /facts/id. -/
inductive IdResult where
  | ok (f : Fact)
  | notFound (id : Int)
  | invalidId
deriving Repr, DecidableEq

/-- Lookup of a parsed id: facts.find(f => f.id === id). -/
def byIdParsed (facts : List Fact) (id : Int) : IdResult :=
  match facts.find? (fun f => decide (f.id = id)) with
  | some f => .ok f
  | none => .notFound id

/-- The GET /facts/id handler: parseInt the path segment, 400 on NaN,
404 when no fact carries the id, else the fact. -/
def byId (facts : List Fact) (idStr : String) : IdResult :=
  match parseIntJS idStr with
  | none => .invalidId
  | some id => byIdParsed facts id

/-- One insertion into the order-preserving view of a JavaScript Set. -/
def jsSetAdd (acc : List String) (x : String) : List String :=
  if x ∈ acc then acc else acc ++ [x]

/-- [...new Set(l)]: first occurrences in order. -/
def jsSetList (l : List String) : List String :=
  l.foldl jsSetAdd []

/-- Lexicographic comparison of character lists by code value, modelling the
default string comparison of Array.prototype.sort (code-unit order; equal to
code-point order on the basic plane). -/
def lexLe : List Char → List Char → Bool
  | [], _ => true
  | _ :: _, [] => false
  | a :: as, b :: bs =>
    if a.toNat = b.toNat then lexLe as bs
    else decide (a.toNat < b.toNat)

/-- The sort order of the category index. -/
def strLeProp (a b : String) : Prop :=
  lexLe a.toList b.toList = true

instance : DecidableRel strLeProp := fun a b => by
  unfold strLeProp
  infer_instance

/-- The category index: [...new Set(facts.map(f => f.category))].sort(). -/
def categoriesOf (facts : List Fact) : List String :=
  (jsSetList (facts.map Fact.category)).insertionSort strLeProp

/-- Outcome of one attempt to fetch and decode the remote facts.json. -/
inductive FetchOutcome where
  | success (raw : List RawFact)
  | failure
deriving Repr

/-- The memoizing loader of api/index.ts: return the cache when set, else
build from a successful fetch and cache it, else propagate the failure and
leave the cache unset.  The pair is (cache after the call, result). -/
def loadFacts (cache : Option (List Fact)) (outcome : FetchOutcome) :
    Option (List Fact) × Except Unit (List Fact) :=
  match cache with
  | some fs => (some fs, .ok fs)
  | none =>
    match outcome with
    | .success raw =>
      let fs := addIds raw
      (some fs, .ok fs)
    | .failure => (none, .error ())

/-- Placeholder fact never drawn by valid random indices. -/
def defaultFact : Fact :=
  { id := 0, text := "", category := "" }

/-- The while-loop guard of GET /facts/random:
result.length < count && result.length < facts.length, with count possibly NaN. -/
def sampleCond (count : Option Int) (len fLen : Nat) : Bool :=
  (match count with
   | none => false
   | some c => decide ((len : Int) < c)) && decide (len < fLen)

/-- The rejection-sampling loop of GET /facts/random, run on an explicit
trace of the indices Math.random produced.  Returns the collected facts and
whether the loop reached its stopping condition before the trace ran out. -/
def sampleGo (facts : List Fact) (count : Option Int) :
    List Nat → List Nat → List Fact → List Fact × Bool
  | [], _, result =>
    if sampleCond count result.length facts.length then (result, false)
    else (result, true)
  | idx :: rest, indices, result =>
    if sampleCond count result.length facts.length then
      if idx ∈ indices then sampleGo facts count rest indices result
      else sampleGo facts count rest (idx :: indices)
        (result ++ [facts.getD idx defaultFact])
    else (result, true)

/-- Response data of GET /facts/random: count === 1 picks result[0]
(undefined on an empty result), anything else returns the array. -/
inductive RandomData where
  | single (f : Fact)
  | multiple (fs : List Fact)
  | undef
deriving Repr, DecidableEq

/-- count === 1 ? result[0] : result. -/
def randomData (count : Option Int) (result : List Fact) : RandomData :=
  if count = some 1 then
    match result with
    | [] => .undef
    | f :: _ => .single f
  else .multiple result

/-- Response of GET /facts/random plus the completion flag of its loop. -/
structure RandomResult where
  data : RandomData
  complete : Bool
deriving Repr, DecidableEq

/-- The GET /facts/random handler on an explicit random-index trace:
count = Math.min(parseInt(query count or 1), 100), then the rejection loop. -/
def randomSample (facts : List Fact) (countQ : Option String) (draws : List Nat) :
    RandomResult :=
  let count := jsMin (parseIntJS (countQ.getD "1")) 100
  let go := sampleGo facts count draws [] []
  { data := randomData count go.1, complete := go.2 }

/-- GET /stats payload: categories counted from the index, uniqueSources
a fixed constant in the source. -/
structure Stats where
  totalFacts : Nat
  categories : Nat
  uniqueSources : Nat
deriving Repr, DecidableEq

/-- The GET /stats handler. -/
def stats (facts : List Fact) : Stats :=
  { totalFacts := facts.length,
    categories := (categoriesOf facts).length,
    uniqueSources := 13 }

/-! The five-fact example corpus of the testable-properties section:
categories Physics, Physics, Chemistry, physics, Biology with ids 1 to 5. -/

/-- Example fact 1. -/
def exampleFact1 : Fact :=
  { id := 1, text := "Light bends near massive objects", category := "Physics" }

/-- Example fact 2. -/
def exampleFact2 : Fact :=
  { id := 2, text := "Quantum tunneling lets particles cross barriers", category := "Physics" }

/-- Example fact 3. -/
def exampleFact3 : Fact :=
  { id := 3, text := "Water is a polar molecule", category := "Chemistry" }

/-- Example fact 4. -/
def exampleFact4 : Fact :=
  { id := 4, text := "Sound needs a medium to travel", category := "physics" }

/-- Example fact 5. -/
def exampleFact5 : Fact :=
  { id := 5, text := "Mitochondria produce most cellular energy", category := "Biology" }

/-- The example corpus. -/
def exampleFacts : List Fact :=
  [exampleFact1, exampleFact2, exampleFact3, exampleFact4, exampleFact5]

/-! Helper lemmas about the embedded operations. -/

/-- Both slice bounds nonnegative: JavaScript slice is the plain window. -/
lemma jsSlice_nonneg (l : List Fact) (o e : Int) (ho : 0 ≤ o) (he : 0 ≤ e) :
    jsSlice l (some o) (some e) = (l.drop o.toNat).take (e.toNat - o.toNat) := by
  simp only [jsSlice, jsSliceBound]
  rw [if_neg (not_lt.mpr ho), if_neg (not_lt.mpr he)]
  rcases Nat.le_total o.toNat l.length with hol | hol
  · rw [Nat.min_eq_left hol]
    rcases Nat.le_total e.toNat l.length with hel | hel
    · rw [Nat.min_eq_left hel]
    · rw [Nat.min_eq_right hel]
      have hlen : (l.drop o.toNat).length = l.length - o.toNat := List.length_drop o.toNat l
      rw [List.take_of_length_le (by omega), List.take_of_length_le (by omega)]
  · rw [Nat.min_eq_right hol, List.drop_length, List.drop_eq_nil_of_le hol,
      List.take_nil, List.take_nil]

/-- A start bound at or beyond the length slices to the empty list. -/
lemma jsSlice_ge_length (l : List Fact) (o : Int) (stop : Option Int)
    (h : (l.length : Int) ≤ o) : jsSlice l (some o) stop = [] := by
  have h0 : ¬ o < 0 := by omega
  have h1 : l.length ≤ o.toNat := by omega
  simp only [jsSlice, jsSliceBound]
  rw [if_neg h0, Nat.min_eq_right h1, List.drop_length, List.take_nil]

/-- C1, amended: for a parseable limit and a parseable nonnegative offset
whose window end is also nonnegative, listPage clamps the limit to
min(limit, 1000) with no lower bound, returns the corpus window
[offset, offset + clamped limit) in corpus (id) order, and reports
total = corpus size, the clamped limit, the offset, and
hasMore = offset + clamped limit < total.  (For a negative offset or a
negative window end the page instead follows the from-the-end clamping of
JavaScript slice, see the counterexample.) -/
theorem c1_listPage_spec (facts : List Fact) (limitQ offsetQ : Option String)
    (l o : Int)
    (hl : parseIntJS (limitQ.getD "100") = some l)
    (ho : parseIntJS (offsetQ.getD "0") = some o)
    (h0 : 0 ≤ o) (h1 : 0 ≤ o + min l 1000) :
    listPage facts limitQ offsetQ =
      { data := (facts.drop o.toNat).take ((o + min l 1000).toNat - o.toNat),
        pagination :=
          { total := facts.length, limit := some (min l 1000), offset := some o,
            hasMore := decide (o + min l 1000 < (facts.length : Int)) } } := by
  unfold listPage
  rw [hl, ho]
  simp only [jsMin, jsAdd, jsLtLen]
  rw [jsSlice_nonneg facts o (o + min l 1000) h0 h1]

/-- Witness for C1 at the example of the spec: limit 2, offset 2 on the
five-fact corpus yields the facts with ids 3 and 4 and hasMore = true. -/
theorem c1_listPage_spec_witness :
    listPage exampleFacts (some "2") (some "2") =
      { data := [exampleFact3, exampleFact4],
        pagination :=
          { total := 5, limit := some 2, offset := some 2, hasMore := true } } := by
  have h := c1_listPage_spec exampleFacts (some "2") (some "2") 2 2
    (by decide) (by decide) (by decide) (by decide)
  rw [h]
  decide

/-- Counterexample to C1 as stated: at offset -2 (default limit 100) on the
five-fact corpus the claimed window [-2, 98) contains every position of the
corpus, yet the code returns only the last two facts, because JavaScript
slice counts a negative start from the end. -/
theorem c1_counterexample :
    (listPage exampleFacts none (some "-2")).data ≠ exampleFacts ∧
    (listPage exampleFacts none (some "-2")).data = [exampleFact4, exampleFact5] := by
  decide

/-- C2, amended: listPage is total (it returns a page for every input, there
is no error branch), and every parseable offset at or beyond the corpus size
yields an empty page; a negative offset that addresses no position, however,
is clamped from the end and can return a nonempty page, see the
counterexample. -/
theorem c2_outOfRange_empty (facts : List Fact) (limitQ offsetQ : Option String)
    (o : Int)
    (ho : parseIntJS (offsetQ.getD "0") = some o)
    (hrange : (facts.length : Int) ≤ o) :
    (listPage facts limitQ offsetQ).data = [] := by
  unfold listPage
  rw [ho]
  exact jsSlice_ge_length facts o _ hrange

/-- Witness for C2: offset 7 on the five-fact corpus yields an empty page. -/
theorem c2_outOfRange_empty_witness :
    (listPage exampleFacts none (some "7")).data = [] :=
  c2_outOfRange_empty exampleFacts none (some "7") 7 (by decide) (by decide)

/-- Counterexample to C2 as stated: offset -6 addresses no existing position
of the five-fact corpus, yet the page is the whole corpus rather than empty,
because JavaScript slice clamps a negative start at 0. -/
theorem c2_counterexample :
    (listPage exampleFacts none (some "-6")).data = exampleFacts ∧
    exampleFacts ≠ [] := by
  decide

/-- The loader maps position i to id i + 1. -/
lemma addIds_map_id (raw : List RawFact) :
    (addIds raw).map Fact.id = (List.range raw.length).map (fun i : Nat => (i : Int) + 1) := by
  apply List.ext_getElem
  · simp only [addIds, List.length_map, List.length_mapIdx, List.length_range]
  · intro n h1 h2
    simp only [addIds, List.getElem_map, List.getElem_mapIdx, List.getElem_range]

/-- Every fact collected by the sampling loop that did not already sit in the
accumulator comes from the corpus. -/
lemma sampleGo_mem (facts : List Fact) (count : Option Int) :
    ∀ (draws indices : List Nat) (result : List Fact),
      (∀ i ∈ draws, i < facts.length) →
      (∀ f ∈ result, f ∈ facts) →
      ∀ f ∈ (sampleGo facts count draws indices result).1, f ∈ facts := by
  intro draws
  induction draws with
  | nil =>
    intro indices result _ hres f hf
    simp only [sampleGo] at hf
    split at hf <;> exact hres f hf
  | cons idx rest ih =>
    intro indices result hd hres f hf
    simp only [sampleGo] at hf
    split at hf
    · split at hf
      · exact ih indices result (fun i hi => hd i (List.mem_cons_of_mem idx hi)) hres f hf
      · refine ih _ _ (fun i hi => hd i (List.mem_cons_of_mem idx hi)) ?_ f hf
        intro g hg
        rcases List.mem_append.mp hg with hg1 | hg2
        · exact hres g hg1
        · have hidx : idx < facts.length := hd idx (List.mem_cons_self idx rest)
          have : g = facts[idx] := by
            rw [List.getD_eq_getElem facts defaultFact hidx] at hg2
            simpa using hg2
          rw [this]
          exact List.getElem_mem hidx
    · exact hres f hf

/-- C3: the loader assigns the ids 1..N in source order (so ids are exactly
1..N with no gaps or duplicates), and no query operation adds, removes, or
edits a Fact: each operation is a pure function of the corpus and its
parameters, and every fact any of them returns is a member of the corpus. -/
theorem c3_load_ids_readonly :
    (∀ raw : List RawFact,
      (addIds raw).map Fact.id = (List.range raw.length).map (fun i : Nat => (i : Int) + 1)) ∧
    (∀ (facts : List Fact) (limitQ offsetQ : Option String),
      ∀ f ∈ (listPage facts limitQ offsetQ).data, f ∈ facts) ∧
    (∀ (facts : List Fact) (count : Option Int) (draws indices : List Nat)
      (result : List Fact),
      (∀ i ∈ draws, i < facts.length) → (∀ f ∈ result, f ∈ facts) →
      ∀ f ∈ (sampleGo facts count draws indices result).1, f ∈ facts) ∧
    (∀ (facts : List Fact) (qQ : Option String) (r : SearchOk),
      searchText facts qQ = .ok r → ∀ f ∈ r.data, f ∈ facts) ∧
    (∀ (facts : List Fact) (name : String) (r : CategoryOk),
      byCategory facts name = .ok r → ∀ f ∈ r.data, f ∈ facts) ∧
    (∀ (facts : List Fact) (idStr : String) (f : Fact),
      byId facts idStr = .ok f → f ∈ facts) := by
  refine ⟨addIds_map_id, ?_, sampleGo_mem, ?_, ?_, ?_⟩
  · intro facts limitQ offsetQ f hf
    simp only [listPage, jsSlice] at hf
    exact List.mem_of_mem_drop (List.mem_of_mem_take hf)
  · intro facts qQ r h f hf
    cases qQ with
    | none => simp [searchText] at h
    | some s =>
      simp only [searchText] at h
      split at h
      · cases h
      · cases h
        exact List.mem_of_mem_filter hf
  · intro facts name r h f hf
    simp only [byCategory] at h
    split at h
    · cases h
    · cases h
      exact List.mem_of_mem_filter hf
  · intro facts idStr f h
    simp only [byId] at h
    split at h
    · cases h
    · rename_i k _
      simp only [byIdParsed] at h
      split at h
      · rename_i g hg
        cases h
        exact List.mem_of_find?_eq_some hg
      · cases h

/-- Witness for C3: on the example corpus, byId 1 returns a member of the
corpus. -/
theorem c3_load_ids_readonly_witness : exampleFact1 ∈ exampleFacts :=
  c3_load_ids_readonly.2.2.2.2.2 exampleFacts "1" exampleFact1 (by decide)

/-- C9: the loader memoizes successes and only successes.  A first successful
load builds the corpus and caches it; every later call returns that cached
corpus unchanged whatever a fresh fetch would do (so ids and the derived
category index are identical and nothing is re-fetched or re-parsed); a
failed load leaves the cache unset, and the next call attempts the fetch
again and can succeed. -/
theorem c9_loadFacts_memo :
    (∀ raw, loadFacts none (.success raw) = (some (addIds raw), .ok (addIds raw))) ∧
    (∀ fs outcome, loadFacts (some fs) outcome = (some fs, .ok fs)) ∧
    loadFacts none .failure = (none, .error ()) ∧
    (∀ raw outcome2,
      loadFacts (loadFacts none (.success raw)).1 outcome2 =
        (some (addIds raw), .ok (addIds raw))) ∧
    (∀ raw, loadFacts (loadFacts none .failure).1 (.success raw) =
      (some (addIds raw), .ok (addIds raw))) :=
  ⟨fun _ => rfl, fun _ _ => rfl, rfl, fun _ _ => rfl, fun _ => rfl⟩

/-- C8: byId is InvalidId exactly when the id string does not parse, and on
a parsed value k it is NotFound exactly when no fact has id k, and any fact
it returns is the corpus member whose id field is k. -/
theorem c8_byId_spec (facts : List Fact) (idStr : String) :
    (byId facts idStr = .invalidId ↔ parseIntJS idStr = none) ∧
    (∀ k, parseIntJS idStr = some k →
      ((byId facts idStr = .notFound k ↔ ∀ f ∈ facts, f.id ≠ k) ∧
       (∀ f, byId facts idStr = .ok f → f ∈ facts ∧ f.id = k) ∧
       ((∃ f, byId facts idStr = .ok f) ↔ ∃ f ∈ facts, f.id = k))) := by
  cases hp : parseIntJS idStr with
  | none =>
    have hb : byId facts idStr = .invalidId := by
      unfold byId
      rw [hp]
    refine ⟨by simp [hb, hp], ?_⟩
    intro k hk
    cases hk
  | some k0 =>
    have hb : byId facts idStr = byIdParsed facts k0 := by
      unfold byId
      rw [hp]
    rw [hb]
    constructor
    · constructor
      · intro h
        cases hf : facts.find? (fun f => decide (f.id = k0)) <;>
          simp [byIdParsed, hf] at h
      · intro h
        cases h
    · intro k hk
      rw [Option.some.injEq] at hk
      subst hk
      cases hf : facts.find? (fun f => decide (f.id = k0)) with
      | none =>
        have hnone := List.find?_eq_none.mp hf
        have hbp : byIdParsed facts k0 = .notFound k0 := by
          simp [byIdParsed, hf]
        rw [hbp]
        refine ⟨⟨fun _ f hfm he => absurd (decide_eq_true he) (hnone f hfm),
          fun _ => rfl⟩, ?_, ?_⟩
        · intro f h
          cases h
        · constructor
          · rintro ⟨f, hfe⟩
            cases hfe
          · rintro ⟨f, hfm, hfe⟩
            exact absurd (decide_eq_true hfe) (hnone f hfm)
      | some g =>
        have hgm : g ∈ facts := List.mem_of_find?_eq_some hf
        have hgid : g.id = k0 := by simpa using List.find?_some hf
        have hbp : byIdParsed facts k0 = .ok g := by
          simp [byIdParsed, hf]
        rw [hbp]
        refine ⟨?_, ?_, ?_⟩
        · constructor
          · intro h
            cases h
          · intro hall
            exact absurd hgid (hall g hgm)
        · intro f h
          rw [IdResult.ok.injEq] at h
          subst h
          exact ⟨hgm, hgid⟩
        · exact ⟨fun _ => ⟨g, hgm, hgid⟩, fun _ => ⟨g, rfl⟩⟩

/-- Witness for C8 at the examples of the spec: byId 1 yields the first
fact, byId 6 NotFound, byId x InvalidId, on the example corpus. -/
theorem c8_byId_spec_witness :
    byId exampleFacts "1" = .ok exampleFact1 ∧
    byId exampleFacts "6" = .notFound 6 ∧
    byId exampleFacts "x" = .invalidId := by
  refine ⟨by decide, ?_, ?_⟩
  · exact ((c8_byId_spec exampleFacts "6").2 6 (by decide)).1.mpr (by decide)
  · exact (c8_byId_spec exampleFacts "x").1.mpr (by decide)

/-- C6: byCategory matches the request name against each category by
case-insensitive exact comparison, keeps corpus order, echoes the
original-case name with the match count, and is NotFound exactly when
nothing matches. -/
theorem c6_byCategory_spec (facts : List Fact) (name : String) :
    ((∃ n, byCategory facts name = .notFound n) ↔
      facts.filter (fun f => decide (jsToLower f.category = jsToLower name)) = []) ∧
    (∀ r, byCategory facts name = .ok r ↔
      (facts.filter (fun f => decide (jsToLower f.category = jsToLower name)) ≠ [] ∧
       r = { data := facts.filter (fun f => decide (jsToLower f.category = jsToLower name)),
             category := name,
             count := (facts.filter
               (fun f => decide (jsToLower f.category = jsToLower name))).length })) ∧
    (∀ f, f ∈ facts.filter (fun f => decide (jsToLower f.category = jsToLower name)) ↔
      f ∈ facts ∧ jsToLower f.category = jsToLower name) := by
  by_cases he : facts.filter (fun f => decide (jsToLower f.category = jsToLower name)) = []
  · have hb : byCategory facts name = .notFound (jsToLower name) := by
      unfold byCategory
      rw [if_pos (List.isEmpty_iff.mpr he)]
    refine ⟨⟨fun _ => he, fun _ => ⟨jsToLower name, hb⟩⟩, ?_, ?_⟩
    · intro r
      rw [hb]
      constructor
      · intro h
        cases h
      · rintro ⟨hne, _⟩
        exact absurd he hne
    · intro f
      rw [List.mem_filter]
      simp
  · have hb : byCategory facts name =
        .ok { data := facts.filter (fun f => decide (jsToLower f.category = jsToLower name)),
              category := name,
              count := (facts.filter
                (fun f => decide (jsToLower f.category = jsToLower name))).length } := by
      unfold byCategory
      rw [if_neg (fun hcond => he (List.isEmpty_iff.mp hcond))]
    refine ⟨⟨?_, fun h => absurd h he⟩, ?_, ?_⟩
    · rintro ⟨n, hn⟩
      rw [hb] at hn
      cases hn
    · intro r
      rw [hb]
      constructor
      · intro h
        rw [CategoryResult.ok.injEq] at h
        exact ⟨he, h.symm⟩
      · rintro ⟨_, h⟩
        rw [h]
    · intro f
      rw [List.mem_filter]
      simp

/-- Witness for C6 at the example of the spec: byCategory PHYSICS on the
example corpus returns the three facts of categories Physics, Physics and
physics, count 3, echoing PHYSICS. -/
theorem c6_byCategory_spec_witness :
    byCategory exampleFacts "PHYSICS" =
      .ok { data := [exampleFact1, exampleFact2, exampleFact4],
            category := "PHYSICS", count := 3 } := by
  exact ((c6_byCategory_spec exampleFacts "PHYSICS").2.1 _).mpr (by decide)

/-- startsWithList holds exactly on list prefixes. -/
lemma startsWithList_iff (l s : List Char) :
    startsWithList l s = true ↔ ∃ t, l = s ++ t := by
  induction s generalizing l with
  | nil => simp [startsWithList]
  | cons b bs ih =>
    cases l with
    | nil => simp [startsWithList]
    | cons a as =>
      show (decide (a = b) && startsWithList as bs) = true ↔ _
      rw [Bool.and_eq_true, decide_eq_true_eq, ih]
      constructor
      · rintro ⟨rfl, t, rfl⟩
        exact ⟨t, rfl⟩
      · rintro ⟨t, ht⟩
        injection ht with h1 h2
        exact ⟨h1, t, h2⟩

/-- containsSub holds exactly on contiguous sublists. -/
lemma containsSub_iff (hay sub : List Char) :
    containsSub hay sub = true ↔ ∃ pre post, hay = pre ++ sub ++ post := by
  induction hay with
  | nil =>
    rw [containsSub, startsWithList_iff]
    constructor
    · rintro ⟨t, ht⟩
      exact ⟨[], t, ht⟩
    · rintro ⟨pre, post, h⟩
      rcases List.append_eq_nil.mp (List.append_eq_nil.mp h.symm).1 with ⟨rfl, rfl⟩
      exact ⟨post, h⟩
  | cons a t ih =>
    rw [containsSub, Bool.or_eq_true, startsWithList_iff, ih]
    constructor
    · rintro (⟨post, hp⟩ | ⟨pre, post, hp⟩)
      · exact ⟨[], post, by simpa using hp⟩
      · refine ⟨a :: pre, post, ?_⟩
        rw [hp]
        rfl
    · rintro ⟨pre, post, hp⟩
      cases pre with
      | nil =>
        left
        exact ⟨post, by simpa using hp⟩
      | cons a2 pre2 =>
        injection hp with h1 h2
        right
        exact ⟨pre2, post, h2⟩

/-- C5: searchText rejects exactly a missing or empty query; on a nonempty
query it returns, in corpus order, exactly the facts whose lowered text
contains the lowered query as a substring, with their count and the echoed
query; the match predicate reads only the text, never the category. -/
theorem c5_searchText_spec (facts : List Fact) (qQ : Option String) :
    (searchText facts qQ = .missingParameter ↔ (qQ = none ∨ qQ = some "")) ∧
    (∀ s, qQ = some s → s ≠ "" →
      searchText facts qQ =
        .ok { data := facts.filter (matchesQuery (jsToLower s)),
              count := (facts.filter (matchesQuery (jsToLower s))).length,
              query := s }) ∧
    (∀ s f, f ∈ facts.filter (matchesQuery (jsToLower s)) ↔
      (f ∈ facts ∧ ∃ pre post,
        (jsToLower f.text).toList = pre ++ (jsToLower s).toList ++ post)) ∧
    (∀ q f g, f.text = g.text → matchesQuery q f = matchesQuery q g) := by
  refine ⟨?_, ?_, ?_, ?_⟩
  · cases qQ with
    | none => simp [searchText]
    | some s =>
      by_cases hs : s = ""
      · subst hs
        simp [searchText]
      · simp [searchText, hs]
  · intro s hq hs
    subst hq
    simp only [searchText]
    rw [if_neg hs]
  · intro s f
    simp only [List.mem_filter, matchesQuery, containsSub_iff]
  · intro q f g h
    simp only [matchesQuery, h]

/-- Witness for C5 at the example of the spec: the query QUANTUM matches
case-insensitively against text only, returning exactly the quantum
tunneling fact, and never the category field. -/
theorem c5_searchText_spec_witness :
    searchText exampleFacts (some "QUANTUM") =
      .ok { data := exampleFacts.filter (matchesQuery (jsToLower "QUANTUM")),
            count := (exampleFacts.filter (matchesQuery (jsToLower "QUANTUM"))).length,
            query := "QUANTUM" } ∧
    exampleFacts.filter (matchesQuery (jsToLower "QUANTUM")) = [exampleFact2] :=
  ⟨(c5_searchText_spec exampleFacts (some "QUANTUM")).2.1 "QUANTUM" rfl (by decide),
   by decide⟩

/-- Folding jsSetAdd preserves Nodup. -/
lemma jsSetList_aux_nodup : ∀ (l acc : List String),
    acc.Nodup → (l.foldl jsSetAdd acc).Nodup := by
  intro l
  induction l with
  | nil => exact fun _ h => h
  | cons a t ih =>
    intro acc h
    rw [List.foldl_cons]
    refine ih _ ?_
    unfold jsSetAdd
    split
    · exact h
    · rename_i hna
      rw [List.nodup_append]
      refine ⟨h, List.nodup_singleton a, ?_⟩
      intro x hx hxa
      rw [List.mem_singleton] at hxa
      subst hxa
      exact hna hx

/-- Membership after folding jsSetAdd. -/
lemma jsSetList_aux_mem : ∀ (l acc : List String) (x : String),
    x ∈ l.foldl jsSetAdd acc ↔ x ∈ acc ∨ x ∈ l := by
  intro l
  induction l with
  | nil => simp
  | cons a t ih =>
    intro acc x
    rw [List.foldl_cons, ih]
    unfold jsSetAdd
    split
    · rename_i hmem
      simp only [List.mem_cons]
      constructor
      · rintro (h | h)
        · exact Or.inl h
        · exact Or.inr (Or.inr h)
      · rintro (h | rfl | h)
        · exact Or.inl h
        · exact Or.inl hmem
        · exact Or.inr h
    · simp only [List.mem_append, List.mem_singleton, List.mem_cons]
      tauto

/-- The code-order comparison is total. -/
lemma lexLe_total : ∀ as bs : List Char, lexLe as bs = true ∨ lexLe bs as = true := by
  intro as
  induction as with
  | nil => exact fun _ => Or.inl rfl
  | cons a as ih =>
    intro bs
    cases bs with
    | nil => exact Or.inr rfl
    | cons b bs2 =>
      have e1 : lexLe (a :: as) (b :: bs2) =
          if a.toNat = b.toNat then lexLe as bs2 else decide (a.toNat < b.toNat) := rfl
      have e2 : lexLe (b :: bs2) (a :: as) =
          if b.toNat = a.toNat then lexLe bs2 as else decide (b.toNat < a.toNat) := rfl
      by_cases h : a.toNat = b.toNat
      · rcases ih bs2 with h1 | h1
        · left
          rw [e1, if_pos h]
          exact h1
        · right
          rw [e2, if_pos h.symm]
          exact h1
      · rcases Nat.lt_or_ge a.toNat b.toNat with hlt | hge
        · left
          rw [e1, if_neg h]
          exact decide_eq_true hlt
        · right
          rw [e2, if_neg (fun hh => h hh.symm)]
          exact decide_eq_true (by omega)

/-- The code-order comparison is transitive. -/
lemma lexLe_trans : ∀ as bs cs : List Char,
    lexLe as bs = true → lexLe bs cs = true → lexLe as cs = true := by
  intro as
  induction as with
  | nil => exact fun _ _ _ _ => rfl
  | cons a as ih =>
    intro bs cs h1 h2
    cases bs with
    | nil => simp [lexLe] at h1
    | cons b bs2 =>
      cases cs with
      | nil => simp [lexLe] at h2
      | cons c cs2 =>
        have e1 : lexLe (a :: as) (b :: bs2) =
            if a.toNat = b.toNat then lexLe as bs2 else decide (a.toNat < b.toNat) := rfl
        have e2 : lexLe (b :: bs2) (c :: cs2) =
            if b.toNat = c.toNat then lexLe bs2 cs2 else decide (b.toNat < c.toNat) := rfl
        have e3 : lexLe (a :: as) (c :: cs2) =
            if a.toNat = c.toNat then lexLe as cs2 else decide (a.toNat < c.toNat) := rfl
        rw [e1] at h1
        rw [e2] at h2
        rw [e3]
        by_cases hab : a.toNat = b.toNat
        · rw [if_pos hab] at h1
          by_cases hbc : b.toNat = c.toNat
          · rw [if_pos hbc] at h2
            rw [if_pos (hab.trans hbc)]
            exact ih bs2 cs2 h1 h2
          · rw [if_neg hbc] at h2
            have hlt : b.toNat < c.toNat := of_decide_eq_true h2
            rw [if_neg (by omega)]
            exact decide_eq_true (by omega)
        · rw [if_neg hab] at h1
          have hlt1 : a.toNat < b.toNat := of_decide_eq_true h1
          by_cases hbc : b.toNat = c.toNat
          · rw [if_neg (by omega)]
            exact decide_eq_true (by omega)
          · rw [if_neg hbc] at h2
            have hlt2 : b.toNat < c.toNat := of_decide_eq_true h2
            rw [if_neg (by omega)]
            exact decide_eq_true (by omega)

/-- C7: listCategories returns the distinct category values of the corpus,
deduplicated by exact string equality, sorted ascending in code order, with
the example corpus yielding Biology, Chemistry, Physics, physics. -/
theorem c7_categories_spec :
    (∀ facts : List Fact,
      (categoriesOf facts).Sorted strLeProp ∧
      (categoriesOf facts).Nodup ∧
      (∀ s, s ∈ categoriesOf facts ↔ s ∈ facts.map Fact.category)) ∧
    categoriesOf exampleFacts = ["Biology", "Chemistry", "Physics", "physics"] := by
  constructor
  · intro facts
    refine ⟨?_, ?_, ?_⟩
    · haveI : IsTotal String strLeProp := ⟨fun a b => lexLe_total a.toList b.toList⟩
      haveI : IsTrans String strLeProp := ⟨fun a b c => lexLe_trans a.toList b.toList c.toList⟩
      exact List.sorted_insertionSort strLeProp _
    · unfold categoriesOf
      rw [(List.perm_insertionSort strLeProp _).nodup_iff]
      exact jsSetList_aux_nodup _ [] List.nodup_nil
    · intro s
      unfold categoriesOf jsSetList
      rw [(List.perm_insertionSort strLeProp _).mem_iff, jsSetList_aux_mem]
      simp
  · decide

/-- A completed sampling loop stops at min(count, corpus size): if the guard
holds on entry the final length is that minimum, otherwise the accumulator
is returned unchanged. -/
lemma sampleGo_length (facts : List Fact) (c : Int) :
    ∀ (draws indices : List Nat) (result : List Fact),
      (sampleGo facts (some c) draws indices result).2 = true →
      (sampleGo facts (some c) draws indices result).1.length =
        if sampleCond (some c) result.length facts.length
        then min c.toNat facts.length
        else result.length := by
  intro draws
  induction draws with
  | nil =>
    intro indices result hc
    by_cases hcond : sampleCond (some c) result.length facts.length = true
    · have e : sampleGo facts (some c) [] indices result = (result, false) := by
        simp only [sampleGo]
        rw [if_pos hcond]
      rw [e] at hc
      cases hc
    · have e : sampleGo facts (some c) [] indices result = (result, true) := by
        simp only [sampleGo]
        rw [if_neg hcond]
      rw [e, if_neg hcond]
  | cons idx rest ih =>
    intro indices result hc
    have e : sampleGo facts (some c) (idx :: rest) indices result =
        if sampleCond (some c) result.length facts.length then
          if idx ∈ indices then sampleGo facts (some c) rest indices result
          else sampleGo facts (some c) rest (idx :: indices)
            (result ++ [facts.getD idx defaultFact])
        else (result, true) := rfl
    by_cases hcond : sampleCond (some c) result.length facts.length = true
    · by_cases hidx : idx ∈ indices
      · rw [e, if_pos hcond, if_pos hidx] at hc ⊢
        rw [ih indices result hc, if_pos hcond]
      · rw [e, if_pos hcond, if_neg hidx] at hc ⊢
        rw [ih (idx :: indices) (result ++ [facts.getD idx defaultFact]) hc,
          if_pos hcond]
        by_cases hcond2 : sampleCond (some c)
            (result ++ [facts.getD idx defaultFact]).length facts.length = true
        · rw [if_pos hcond2]
        · rw [if_neg hcond2]
          have hA : (result.length : Int) < c ∧ result.length < facts.length := by
            simpa [sampleCond] using hcond
          have hB : ¬(((result ++ [facts.getD idx defaultFact]).length : Int) < c ∧
              (result ++ [facts.getD idx defaultFact]).length < facts.length) := by
            simpa [sampleCond] using hcond2
          have hlen : (result ++ [facts.getD idx defaultFact]).length =
              result.length + 1 := by simp
          rw [hlen]
          rw [hlen] at hB
          omega
    · rw [e, if_neg hcond] at hc ⊢
      rw [if_neg hcond]

/-- The sampling loop keeps, alongside the result, a duplicate-free list of
already chosen in-range indices whose reversed image under indexing is the
result. -/
lemma sampleGo_invariant (facts : List Fact) (c : Option Int) :
    ∀ (draws indices : List Nat) (result : List Fact),
      (∀ i ∈ draws, i < facts.length) →
      (∀ i ∈ indices, i < facts.length) →
      indices.Nodup →
      result = indices.reverse.map (fun i => facts.getD i defaultFact) →
      ∃ outIdx : List Nat,
        (sampleGo facts c draws indices result).1 =
          outIdx.reverse.map (fun i => facts.getD i defaultFact) ∧
        outIdx.Nodup ∧ (∀ i ∈ outIdx, i < facts.length) := by
  intro draws
  induction draws with
  | nil =>
    intro indices result _ hind hnd hres
    have e : (sampleGo facts c [] indices result).1 = result := by
      simp only [sampleGo]
      split <;> rfl
    exact ⟨indices, by rw [e, hres], hnd, hind⟩
  | cons idx rest ih =>
    intro indices result hd hind hnd hres
    have e : sampleGo facts c (idx :: rest) indices result =
        if sampleCond c result.length facts.length then
          if idx ∈ indices then sampleGo facts c rest indices result
          else sampleGo facts c rest (idx :: indices)
            (result ++ [facts.getD idx defaultFact])
        else (result, true) := rfl
    have hd2 : ∀ i ∈ rest, i < facts.length :=
      fun i hi => hd i (List.mem_cons_of_mem idx hi)
    by_cases hcond : sampleCond c result.length facts.length = true
    · by_cases hidx : idx ∈ indices
      · rw [e, if_pos hcond, if_pos hidx]
        exact ih indices result hd2 hind hnd hres
      · rw [e, if_pos hcond, if_neg hidx]
        refine ih (idx :: indices) (result ++ [facts.getD idx defaultFact])
          hd2 ?_ ?_ ?_
        · intro i hi
          rcases List.mem_cons.mp hi with rfl | hi2
          · exact hd i (List.mem_cons_self i rest)
          · exact hind i hi2
        · exact List.nodup_cons.mpr ⟨hidx, hnd⟩
        · rw [List.reverse_cons, List.map_append, ← hres]
          rfl
    · rw [e, if_neg hcond]
      exact ⟨indices, hres, hnd, hind⟩

/-- Indexing a duplicate-free list at distinct positions is injective. -/
lemma getElem_inj_of_nodup {l : List Fact} (h : l.Nodup) {i j : Nat}
    (hi : i < l.length) (hj : j < l.length) (he : l[i] = l[j]) : i = j := by
  have h2 : l.get ⟨i, hi⟩ = l.get ⟨j, hj⟩ ↔ (⟨i, hi⟩ : Fin l.length) = ⟨j, hj⟩ :=
    List.Nodup.get_inj_iff h
  have h3 := h2.mp (by simpa [List.get_eq_getElem] using he)
  exact congrArg Fin.val h3

/-- Distinct valid indices into a duplicate-free corpus pick distinct facts. -/
lemma map_getD_nodup (facts : List Fact) (hnd : facts.Nodup) (idxs : List Nat)
    (hlt : ∀ i ∈ idxs, i < facts.length) (hidx : idxs.Nodup) :
    (idxs.map (fun i => facts.getD i defaultFact)).Nodup := by
  refine List.Nodup.map_on ?_ hidx
  intro x hx y hy hxy
  have hxl := hlt x hx
  have hyl := hlt y hy
  rw [List.getD_eq_getElem facts defaultFact hxl,
    List.getD_eq_getElem facts defaultFact hyl] at hxy
  exact getElem_inj_of_nodup hnd hxl hyl hxy

/-- Indexing over the full range reproduces the list. -/
lemma map_getD_range (l : List Fact) :
    (List.range l.length).map (fun i => l.getD i defaultFact) = l := by
  induction l with
  | nil => rfl
  | cons x xs ih =>
    rw [List.length_cons, List.range_succ_eq_map, List.map_cons, List.map_map]
    congr 1

/-- A duplicate-free list of N valid indices into an N-element corpus maps to
a permutation of the corpus. -/
lemma perm_of_indices (facts : List Fact) (idxs : List Nat)
    (hlen : idxs.length = facts.length) (hnd : idxs.Nodup)
    (hlt : ∀ i ∈ idxs, i < facts.length) :
    (idxs.map (fun i => facts.getD i defaultFact)).Perm facts := by
  have hsub : idxs ⊆ List.range facts.length :=
    fun i hi => List.mem_range.mpr (hlt i hi)
  have hsp : List.Subperm idxs (List.range facts.length) :=
    List.subperm_of_subset hnd hsub
  have hperm : idxs.Perm (List.range facts.length) :=
    hsp.perm_of_length_le (by rw [hlen, List.length_range])
  have h2 := hperm.map (fun i => facts.getD i defaultFact)
  rw [map_getD_range] at h2
  exact h2

/-- C4, amended: for a parseable nonnegative count, valid random draws and a
completed loop on a duplicate-free corpus, randomSample clamps count to
min(count, 100) and returns exactly min(clamped count, N) distinct facts
drawn without replacement from the corpus (the whole corpus, each fact
exactly once in some order, when the clamped count reaches N), as a single
fact when count = 1 on a nonempty corpus and as the array of draws
otherwise.  (A negative count returns an empty array, see the
counterexample.) -/
theorem c4_randomSample_spec (facts : List Fact) (countQ : Option String)
    (draws : List Nat) (cnt : Int)
    (hc : parseIntJS (countQ.getD "1") = some cnt)
    (h0 : 0 ≤ cnt)
    (hdraws : ∀ i ∈ draws, i < facts.length)
    (hfnd : facts.Nodup)
    (hcomp : (randomSample facts countQ draws).complete = true) :
    (sampleGo facts (some (min cnt 100)) draws [] []).1.length =
        min (min cnt 100).toNat facts.length ∧
    (sampleGo facts (some (min cnt 100)) draws [] []).1.Nodup ∧
    (∀ f ∈ (sampleGo facts (some (min cnt 100)) draws [] []).1, f ∈ facts) ∧
    ((facts.length : Int) ≤ min cnt 100 →
      (sampleGo facts (some (min cnt 100)) draws [] []).1.Perm facts) ∧
    (cnt = 1 → facts ≠ [] → ∃ f, f ∈ facts ∧
      (randomSample facts countQ draws).data = .single f) ∧
    (min cnt 100 ≠ 1 →
      (randomSample facts countQ draws).data =
        .multiple (sampleGo facts (some (min cnt 100)) draws [] []).1) := by
  have hcount : jsMin (parseIntJS (countQ.getD "1")) 100 = some (min cnt 100) := by
    rw [hc]
    rfl
  have hunfold : randomSample facts countQ draws =
      { data := randomData (some (min cnt 100))
          (sampleGo facts (some (min cnt 100)) draws [] []).1,
        complete := (sampleGo facts (some (min cnt 100)) draws [] []).2 } := by
    unfold randomSample
    rw [hcount]
  have hcomp2 : (sampleGo facts (some (min cnt 100)) draws [] []).2 = true := by
    rw [hunfold] at hcomp
    exact hcomp
  have hlen2 : (sampleGo facts (some (min cnt 100)) draws [] []).1.length =
      min (min cnt 100).toNat facts.length := by
    rw [sampleGo_length facts (min cnt 100) draws [] [] hcomp2]
    by_cases hcond : sampleCond (some (min cnt 100))
        (List.length ([] : List Fact)) facts.length = true
    · rw [if_pos hcond]
    · rw [if_neg hcond]
      have hx : ¬((0 : Int) < min cnt 100 ∧ 0 < facts.length) := by
        simpa [sampleCond] using hcond
      simp only [List.length_nil]
      rcases not_and_or.mp hx with h | h
      · rw [Int.toNat_of_nonpos (not_lt.mp h)]
        simp
      · have hz : facts.length = 0 := by omega
        rw [hz]
        simp
  obtain ⟨outIdx, hmap, hond, holt⟩ :=
    sampleGo_invariant facts (some (min cnt 100)) draws [] [] hdraws
      (fun i hi => absurd hi (List.not_mem_nil i)) List.nodup_nil (by simp)
  have hmem : ∀ f ∈ (sampleGo facts (some (min cnt 100)) draws [] []).1, f ∈ facts :=
    sampleGo_mem facts (some (min cnt 100)) draws [] [] hdraws
      (fun f hf => absurd hf (List.not_mem_nil f))
  refine ⟨hlen2, ?_, hmem, ?_, ?_, ?_⟩
  · rw [hmap]
    exact map_getD_nodup facts hfnd outIdx.reverse
      (fun i hi => holt i (List.mem_reverse.mp hi))
      (List.nodup_reverse.mpr hond)
  · intro hge
    have hN : min (min cnt 100).toNat facts.length = facts.length := by omega
    rw [hmap]
    refine perm_of_indices facts outIdx.reverse ?_ (List.nodup_reverse.mpr hond)
      (fun i hi => holt i (List.mem_reverse.mp hi))
    have : (outIdx.reverse.map (fun i => facts.getD i defaultFact)).length =
        facts.length := by
      rw [← hmap, hlen2, hN]
    simpa using this
  · intro h1 hne
    have hm : min cnt 100 = 1 := by
      rw [h1]
      decide
    have hNpos : 0 < facts.length := List.length_pos.mpr hne
    have hlen3 : (sampleGo facts (some (min cnt 100)) draws [] []).1.length = 1 := by
      rw [hlen2, hm]
      simp only [Int.toNat_one]
      omega
    cases hres : (sampleGo facts (some (min cnt 100)) draws [] []).1 with
    | nil =>
      rw [hres] at hlen3
      cases hlen3
    | cons f t =>
      refine ⟨f, hmem f (by rw [hres]; exact List.mem_cons_self f t), ?_⟩
      rw [hunfold]
      show randomData (some (min cnt 100))
        (sampleGo facts (some (min cnt 100)) draws [] []).1 = RandomData.single f
      rw [hres, hm]
      unfold randomData
      rw [if_pos rfl]
  · intro hne1
    rw [hunfold]
    show randomData (some (min cnt 100))
      (sampleGo facts (some (min cnt 100)) draws [] []).1 =
      RandomData.multiple (sampleGo facts (some (min cnt 100)) draws [] []).1
    unfold randomData
    rw [if_neg (fun hh => hne1 (Option.some.injEq _ _ ▸ hh))]

/-- Witness for C4: count 2 with draw trace 0, 3 on the example corpus
completes and collects exactly min(min(2,100), 5) = 2 facts. -/
theorem c4_randomSample_spec_witness :
    (sampleGo exampleFacts (some (min 2 100)) [0, 3] [] []).1.length =
      min (min (2 : Int) 100).toNat exampleFacts.length :=
  (c4_randomSample_spec exampleFacts (some "2") [0, 3] 2 (by decide) (by decide)
    (by decide) (by decide) (by decide)).1

/-- Counterexample to C4 as stated: at count -3 (clamped to -3, no lower
bound) the loop guard fails at once, the sampler completes with an empty
array, and the number of returned facts is 0, not the claimed
min(clamped count, N) = -3. -/
theorem c4_counterexample :
    (randomSample exampleFacts (some "-3") []).complete = true ∧
    (randomSample exampleFacts (some "-3") []).data = .multiple [] ∧
    ¬((([] : List Fact).length : Int) =
      min (min (-3) 100) (exampleFacts.length : Int)) := by
  decide

/-- A decimal digit character has its value as radix-10 digit value. -/
lemma digitVal_ten_digit {c : Char} (h : '0' ≤ c ∧ c ≤ '9') :
    digitVal 10 c = some (c.toNat - '0'.toNat) := by
  have h1 : 48 ≤ c.toNat := h.1
  have h2 : c.toNat ≤ 57 := h.2
  have h0 : ('0'.toNat : Nat) = 48 := rfl
  simp only [digitVal]
  rw [if_pos h]
  show (if c.toNat - '0'.toNat < 10 then some (c.toNat - '0'.toNat) else none) =
    some (c.toNat - '0'.toNat)
  rw [if_pos (by rw [h0]; omega)]

/-- A character that is not a decimal digit has no radix-10 digit value. -/
lemma digitVal_ten_none {c : Char} (h : ¬('0' ≤ c ∧ c ≤ '9')) :
    digitVal 10 c = none := by
  simp only [digitVal]
  rw [if_neg h]
  by_cases h2 : 'a' ≤ c ∧ c ≤ 'z'
  · rw [if_pos h2]
    show (if c.toNat - 'a'.toNat + 10 < 10 then some (c.toNat - 'a'.toNat + 10) else none) =
      none
    rw [if_neg (by omega)]
  · rw [if_neg h2]
    by_cases h3 : 'A' ≤ c ∧ c ≤ 'Z'
    · rw [if_pos h3]
      show (if c.toNat - 'A'.toNat + 10 < 10 then some (c.toNat - 'A'.toNat + 10) else none) =
        none
      rw [if_neg (by omega)]
    · rw [if_neg h3]

/-- A decimal digit is not parseInt whitespace. -/
lemma isJsSpace_eq_false {c : Char} (h : '0' ≤ c ∧ c ≤ '9') :
    isJsSpace c = false := by
  have h1 : 48 ≤ c.toNat := h.1
  simp only [isJsSpace, Bool.or_eq_false_iff, decide_eq_false_iff_not]
  and_intros <;> (intro he; rw [he] at h1; exact absurd h1 (by decide))

/-- A leading decimal digit is not a sign. -/
lemma parseSign_digit {d : Char} (h : '0' ≤ d ∧ d ≤ '9') (tl : List Char) :
    parseSign (d :: tl) = (1, d :: tl) := by
  have h1 : 48 ≤ d.toNat := h.1
  have hm : d ≠ '-' := fun he => by rw [he] at h1; exact absurd h1 (by decide)
  have hp : d ≠ '+' := fun he => by rw [he] at h1; exact absurd h1 (by decide)
  simp only [parseSign]
  rw [if_neg hm, if_neg hp]

/-- A run of decimal digits with no 0x / 0X marker keeps radix 10. -/
lemma parseRadix_digits {ds rest : List Char} (hne : ds ≠ [])
    (hdig : ∀ c ∈ ds, '0' ≤ c ∧ c ≤ '9')
    (hnohex : ¬(ds = ['0'] ∧ (rest.head? = some 'x' ∨ rest.head? = some 'X'))) :
    parseRadix (ds ++ rest) = (10, ds ++ rest) := by
  cases ds with
  | nil => exact absurd rfl hne
  | cons d ds2 =>
    cases ds2 with
    | nil =>
      cases rest with
      | nil => rfl
      | cons r rest2 =>
        simp only [List.cons_append, List.nil_append, parseRadix]
        rw [if_neg]
        rintro ⟨h0, hc⟩
        refine hnohex ⟨by rw [h0], ?_⟩
        rcases hc with hc | hc
        · exact Or.inl (by subst hc; rfl)
        · exact Or.inr (by subst hc; rfl)
    | cons d2 ds3 =>
      have hd2 : '0' ≤ d2 ∧ d2 ≤ '9' := hdig d2 (by simp)
      have h2 : d2.toNat ≤ 57 := hd2.2
      have hx : d2 ≠ 'x' := fun he => by rw [he] at h2; exact absurd h2 (by decide)
      have hX : d2 ≠ 'X' := fun he => by rw [he] at h2; exact absurd h2 (by decide)
      simp only [List.cons_append, parseRadix]
      rw [if_neg]
      rintro ⟨_, hc | hc⟩
      · exact hx hc
      · exact hX hc

/-- takeWhile on digits stops exactly at the end of the digit run. -/
lemma takeWhile_digits : ∀ (ds rest : List Char),
    (∀ c ∈ ds, '0' ≤ c ∧ c ≤ '9') →
    (∀ c, rest.head? = some c → ¬('0' ≤ c ∧ c ≤ '9')) →
    (ds ++ rest).takeWhile (fun c => (digitVal 10 c).isSome) = ds := by
  intro ds
  induction ds with
  | nil =>
    intro rest _ hrest
    cases rest with
    | nil => rfl
    | cons r t =>
      simp only [List.nil_append, List.takeWhile_cons, digitVal_ten_none (hrest r rfl)]
      rfl
  | cons d ds2 ih =>
    intro rest hdig hrest
    have hd := hdig d (List.mem_cons_self d ds2)
    simp only [List.cons_append, List.takeWhile_cons, digitVal_ten_digit hd,
      Option.isSome_some, if_true]
    rw [ih rest (fun c hc => hdig c (List.mem_cons_of_mem d hc)) hrest]

/-- parseIntCore on a digit run followed by a non-digit equals parseIntCore
on the digit run alone, and a nonempty digit run always parses. -/
lemma parseIntCore_digits {ds rest : List Char} (hne : ds ≠ [])
    (hdig : ∀ c ∈ ds, '0' ≤ c ∧ c ≤ '9')
    (hrest : ∀ c, rest.head? = some c → ¬('0' ≤ c ∧ c ≤ '9')) :
    parseIntCore 10 (ds ++ rest) = parseIntCore 10 ds ∧ parseIntCore 10 ds ≠ none := by
  have htake1 : (ds ++ rest).takeWhile (fun c => (digitVal 10 c).isSome) = ds :=
    takeWhile_digits ds rest hdig hrest
  have htake2 : ds.takeWhile (fun c => (digitVal 10 c).isSome) = ds := by
    have := takeWhile_digits ds [] hdig (fun c hc => Option.noConfusion hc)
    rwa [List.append_nil] at this
  constructor
  · simp only [parseIntCore, htake1, htake2]
  · simp only [parseIntCore, htake2]
    rw [if_neg (by simpa using hne)]
    simp

/-- C10, amended: byId accepts id strings that merely begin with a run of
decimal digits not carrying a 0x or 0X hexadecimal marker: for every such
string, parseInt succeeds and byId behaves exactly as on the digit run
alone (so byId of 3abc equals byId of 3 and is never InvalidId).  A string
whose digit prefix is 0 followed by x or X is instead read as hexadecimal
by parseInt, see the counterexample. -/
theorem c10_decimal_spec (facts : List Fact) (s : String) (ds rest : List Char)
    (hsplit : s.toList = ds ++ rest)
    (hne : ds ≠ [])
    (hdig : ∀ c ∈ ds, '0' ≤ c ∧ c ≤ '9')
    (hrest : ∀ c, rest.head? = some c → ¬('0' ≤ c ∧ c ≤ '9'))
    (hnohex : ¬(ds = ['0'] ∧ (rest.head? = some 'x' ∨ rest.head? = some 'X'))) :
    parseIntJS s = parseIntJS (String.mk ds) ∧
    parseIntJS s ≠ none ∧
    byId facts s = byId facts (String.mk ds) := by
  obtain ⟨d, ds2, rfl⟩ : ∃ d ds2, ds = d :: ds2 := by
    cases ds with
    | nil => exact absurd rfl hne
    | cons d ds2 => exact ⟨d, ds2, rfl⟩
  have hd : '0' ≤ d ∧ d ≤ '9' := hdig d (List.mem_cons_self d ds2)
  have hdrop1 : s.toList.dropWhile isJsSpace = (d :: ds2) ++ rest := by
    rw [hsplit]
    simp only [List.cons_append, List.dropWhile_cons, isJsSpace_eq_false hd]
    rfl
  have hdrop2 : (String.mk (d :: ds2)).toList.dropWhile isJsSpace = d :: ds2 := by
    show (d :: ds2).dropWhile isJsSpace = d :: ds2
    simp only [List.dropWhile_cons, isJsSpace_eq_false hd]
    rfl
  have hsign1 : parseSign ((d :: ds2) ++ rest) = (1, (d :: ds2) ++ rest) := by
    rw [List.cons_append]
    exact parseSign_digit hd (ds2 ++ rest)
  have hsign2 : parseSign (d :: ds2) = (1, d :: ds2) := parseSign_digit hd ds2
  have hradix1 : parseRadix ((d :: ds2) ++ rest) = (10, (d :: ds2) ++ rest) :=
    parseRadix_digits hne hdig hnohex
  have hradix2 : parseRadix (d :: ds2) = (10, d :: ds2) := by
    have hnohex2 : ¬((d :: ds2) = ['0'] ∧
        (([] : List Char).head? = some 'x' ∨ ([] : List Char).head? = some 'X')) := by
      rintro ⟨_, hc | hc⟩ <;> cases hc
    have := parseRadix_digits hne hdig hnohex2
    rwa [List.append_nil] at this
  have hcore := parseIntCore_digits hne hdig hrest
  have hA : parseIntJS s =
      match parseIntCore 10 ((d :: ds2) ++ rest) with
      | none => none
      | some n => some ((1 : Int) * n) := by
    simp only [parseIntJS, hdrop1, hsign1, hradix1]
  have hB : parseIntJS (String.mk (d :: ds2)) =
      match parseIntCore 10 (d :: ds2) with
      | none => none
      | some n => some ((1 : Int) * n) := by
    simp only [parseIntJS, hdrop2, hsign2, hradix2]
  have heq : parseIntJS s = parseIntJS (String.mk (d :: ds2)) := by
    rw [hA, hB, hcore.1]
  refine ⟨heq, ?_, ?_⟩
  · rw [heq, hB]
    cases hval : parseIntCore 10 (d :: ds2) with
    | none => exact absurd hval hcore.2
    | some n => simp
  · unfold byId
    rw [heq]

/-- Witness for C10: byId of 3abc on the example corpus behaves exactly as
byId of 3 (and parses rather than erroring). -/
theorem c10_decimal_spec_witness :
    parseIntJS "3abc" = parseIntJS (String.mk ['3']) ∧
    parseIntJS "3abc" ≠ none ∧
    byId exampleFacts "3abc" = byId exampleFacts (String.mk ['3']) :=
  c10_decimal_spec exampleFacts "3abc" ['3'] ['a', 'b', 'c'] (by decide) (by decide)
    (by decide) (by intro c hc; cases hc; decide) (by decide)

/-- Counterexample to C10 as stated: the leading decimal prefix of 0x2 is 0,
so the claim predicts byId of 0x2 equals byId of 0 (NotFound on the example
corpus), but parseInt reads the 0x marker as hexadecimal and the code
returns the fact with id 2. -/
theorem c10_counterexample :
    byId exampleFacts "0x2" = .ok exampleFact2 ∧
    byId exampleFacts "0" = .notFound 0 ∧
    byId exampleFacts "0x2" ≠ byId exampleFacts "0" := by
  decide

end SciFacts
